import Mathlib

/-!
Verification of the `openintern` MCP server (Python) against its specification.

The development shallowly embeds the two core subsystems:

* the storage/indexing engine of `src/mcp_server/tools/memory.py`
  (record store, keyword extraction, keyword index, the three memory tools), and
* the protocol dispatcher of `src/mcp_server/protocol/mcp.py`
  (JSON values, tool registry, request handling, the stdio read loop).

Python strings are embedded as `List Char` (a Python `str` is a sequence of
code points); case folding uses `Char.toLower` (the ASCII fragment of Python's
`str.lower`), and `str.isalnum` / `str.isspace` classification uses
`Char.isAlphanum` / `Char.isWhitespace` likewise on the ASCII fragment.
The filesystem visible to the memory tools is embedded as explicit state:
an association list of record files and the persisted keyword index.
-/

namespace MCP

/-- Embedding of a Python `str` as its sequence of code points. -/
abbrev Str := List Char

/-- Python `s.lower()` (per-character case folding). -/
def lowerStr (s : Str) : Str := s.map Char.toLower

/-- Python truthiness test `not s or not s.strip()`: `s` is empty or
consists only of whitespace. -/
def isBlank (s : Str) : Bool := s.all Char.isWhitespace

/-- The cleaning step of `_extract_keywords`:
`''.join(c for c in word if c.isalnum())`. -/
def cleanWord (w : Str) : Str := w.filter Char.isAlphanum

/-- Helper for `pySplit`: walks the string accumulating the current token
(in reverse) and emits it at each whitespace boundary. -/
def pySplitAux : Str → Str → List Str
  | [], acc => if acc.isEmpty then [] else [acc.reverse]
  | c :: rest, acc =>
    if c.isWhitespace then
      if acc.isEmpty then pySplitAux rest [] else acc.reverse :: pySplitAux rest []
    else pySplitAux rest (c :: acc)

/-- Python `s.split()` with no separator argument: split on runs of
whitespace, discarding empty tokens. -/
def pySplit (s : Str) : List Str := pySplitAux s []

/-- Adding an element to a Python `set` modelled as a duplicate-free list:
`s.add(x)` keeps the list unchanged when `x` is already present and appends
it otherwise (first-insertion enumeration order). -/
def setInsert (l : List Str) (x : Str) : List Str :=
  if x ∈ l then l else l ++ [x]

/-- Lookup in an association list with the semantics of a Python `dict`
keyed by the first component (first binding wins). -/
def dictLookup {κ α : Type} [DecidableEq κ] : List (κ × α) → κ → Option α
  | [], _ => none
  | (k, v) :: rest, key => if k = key then some v else dictLookup rest key

/-- A persisted memory record, the JSON object written to
`<data_dir>/memory/shared/items/<id>.json` by `MemoryWriteTool.execute`. -/
structure Record where
  id : Str
  created_at : Str
  updated_at : Str
  content : Str
  keywords : List Str
deriving DecidableEq, Repr

/-- The filesystem state the memory tools operate on: the record files
(keyed by record id) and the persisted keyword index
(`index/keyword.json`, a mapping keyword to list of record ids; an
absent index file behaves as the empty mapping and is embedded as `[]`). -/
structure MemFS where
  items : List (Str × Record)
  index : List (Str × List Str)
deriving DecidableEq, Repr

/-- Reading the record file for `id`: `_load_item` / the body of
`MemoryGetTool.execute` (`none` when the file does not exist). -/
def storeRead (items : List (Str × Record)) (id : Str) : Option Record :=
  dictLookup items id

/-- Writing the record file for `id` (`open(item_path, "w")` truncates and
replaces any previous file with that name; no operation ever deletes a
record file). -/
def storeWrite (items : List (Str × Record)) (id : Str) (r : Record) :
    List (Str × Record) :=
  (id, r) :: items

/-- Python exceptions raised by the memory tools. -/
inductive PyError where
  | valueError (msg : Str)
  | typeError (msg : Str)
deriving DecidableEq, Repr

/-- The result value of `memory.write`. -/
structure WriteResult where
  memory_id : Str
  success : Bool
deriving DecidableEq, Repr

/-- Embedding of `generate_memory_id`: the fixed prefix `mem_` followed by the
12-character random alphanumeric token; the randomness is a parameter of
the embedding. -/
def genMemoryId (randomPart : Str) : Str :=
  'm' :: 'e' :: 'm' :: '_' :: randomPart

/-- Python `tags or []` on the optional tags argument (`None` and the
empty list are falsy). -/
def tagsOrEmpty (tags : Option (List Str)) : List Str :=
  match tags with
  | none => []
  | some l => if l.isEmpty then [] else l

/-- Embedding of `MemoryWriteTool._extract_keywords`: a Python set seeded with the
case-folded explicit keywords, then extended with each whitespace token of
the case-folded content, stripped of non-alphanumeric characters and kept
only when the stripped length is at least 3. -/
def extract_keywords (item : Record) : List Str :=
  let tagKws := item.keywords.foldl (fun acc kw => setInsert acc (lowerStr kw)) []
  (pySplit (lowerStr item.content)).foldl
    (fun acc w =>
      let cleaned := cleanWord w
      if 3 ≤ cleaned.length then setInsert acc cleaned else acc)
    tagKws

/-- One step of the index loop of `_update_keyword_index`: create the
keyword's entry when absent (Python dict insertion appends the new key at
the end), then append the record id to its list when not already present. -/
def indexAdd : List (Str × List Str) → Str → Str → List (Str × List Str)
  | [], kw, id => [(kw, [id])]
  | (k, ids) :: rest, kw, id =>
    if k = kw then (k, if id ∈ ids then ids else ids ++ [id]) :: rest
    else (k, ids) :: indexAdd rest kw id

/-- Embedding of `MemoryWriteTool._update_keyword_index`: fold the extracted keywords
into the persisted index (the write-to-temp-then-replace of the Python
code is atomic, so the embedding is the resulting mapping). -/
def updateKeywordIndex (index : List (Str × List Str)) (item : Record) :
    List (Str × List Str) :=
  (extract_keywords item).foldl (fun ix kw => indexAdd ix kw item.id) index

/-- Embedding of `MemoryWriteTool.execute`: reject empty content, build the record with
the generated id and the current timestamp, write the record file, then
update the keyword index. `randomPart` and `now` stand for the random
token of `generate_memory_id` and `datetime.utcnow()`. -/
def memoryWrite (fs : MemFS) (randomPart now : Str) (content : Str)
    (tags : Option (List Str)) : Except PyError (MemFS × WriteResult) :=
  if content.isEmpty then .error (.valueError "content is required".data)
  else
    let memory_id := genMemoryId randomPart
    let item : Record :=
      { id := memory_id, created_at := now, updated_at := now,
        content := content, keywords := tagsOrEmpty tags }
    let items' := storeWrite fs.items memory_id item
    let index' := updateKeywordIndex fs.index item
    .ok (⟨items', index'⟩, ⟨memory_id, true⟩)

/-- One entry of the `results` list returned by `memory.search`. -/
structure SearchEntry where
  id : Str
  content : Str
  keywords : List Str
deriving DecidableEq, Repr

/-- The result value of `memory.search`. -/
structure SearchResult where
  results : List SearchEntry
  count : Nat
deriving DecidableEq, Repr

/-- Python slicing `l[:k]` for an arbitrary integer `k`: a nonnegative
bound takes the first `k` elements; a negative bound drops the last `|k|`
elements. -/
def pyTake {α : Type} (l : List α) (k : Int) : List α :=
  if 0 ≤ k then l.take k.toNat else l.take (l.length - (-k).toNat)

/-- The index scan of `MemorySearchTool.execute`: for every keyword whose
text contains the case-folded query as a substring, add all of its record
ids to the matching set. -/
def collectMatching (index : List (Str × List Str)) (q : Str) : List Str :=
  index.foldl
    (fun acc p => if q <:+: p.1 then p.2.foldl setInsert acc else acc) []

/-- Loading one matching item in `MemorySearchTool.execute`: `_load_item`
followed by projection to `{id, content, keywords}`; `none` (a missing
record file) is silently skipped by the caller. -/
def searchLoad (items : List (Str × Record)) (id : Str) : Option SearchEntry :=
  (storeRead items id).map fun r => ⟨r.id, r.content, r.keywords⟩

/-- Embedding of `MemorySearchTool.execute`: an empty or whitespace-only query returns
the empty result immediately; otherwise collect the ids of all keywords
containing the case-folded query, truncate to `top_k`, and load each
surviving record, skipping ids whose record file no longer exists. -/
def memorySearch (fs : MemFS) (query : Str) (top_k : Int := 5) : SearchResult :=
  if isBlank query then ⟨[], 0⟩
  else
    let matching := collectMatching fs.index (lowerStr query)
    let results := (pyTake matching top_k).filterMap (searchLoad fs.items)
    ⟨results, results.length⟩

/-- The result value of `memory.get`. -/
structure GetResult where
  memory : Option Record
deriving DecidableEq, Repr

/-- Embedding of `MemoryGetTool.execute` including its calling convention: `none`
embeds a `tools/call` that omits the required `memory_id` keyword, which
Python rejects with a `TypeError` before the body runs; an empty id is
rejected by the body's own check; otherwise the record file is read and
absence is reported as `memory = None`, never as an error. -/
def memoryGet (fs : MemFS) (memory_id : Option Str) :
    Except PyError GetResult :=
  match memory_id with
  | none => .error (.typeError "missing required argument memory_id".data)
  | some mid =>
    if mid.isEmpty then .error (.valueError "memory_id is required".data)
    else .ok ⟨storeRead fs.items mid⟩

/-! ### Protocol dispatcher (`src/mcp_server/protocol/mcp.py`) -/

/-- A JSON value, the data carried by the line-delimited protocol
(floating-point numbers do not occur in the protocol's own traffic and are
omitted from the embedding). -/
inductive JValue where
  | null
  | bool (b : Bool)
  | num (n : Int)
  | str (s : String)
  | arr (elems : List JValue)
  | obj (fields : List (String × JValue))

mutual

/-- Embedding of `json.dumps` on the embedded JSON values (field order preserved, as in
Python; the exact escaping of strings is not modelled). -/
def dumps : JValue → String
  | .null => "null"
  | .bool b => cond b "true" "false"
  | .num n => toString n
  | .str s => "\"" ++ s ++ "\""
  | .arr xs => "[" ++ dumpsArr xs ++ "]"
  | .obj kvs => "\x7b" ++ dumpsObj kvs ++ "\x7d"

/-- Comma-separated serialization of a JSON array's elements. -/
def dumpsArr : List JValue → String
  | [] => ""
  | [x] => dumps x
  | x :: y :: xs => dumps x ++ ", " ++ dumpsArr (y :: xs)

/-- Comma-separated serialization of a JSON object's fields. -/
def dumpsObj : List (String × JValue) → String
  | [] => ""
  | [(k, v)] => "\"" ++ k ++ "\": " ++ dumps v
  | (k, v) :: p :: xs => "\"" ++ k ++ "\": " ++ dumps v ++ ", " ++ dumpsObj (p :: xs)

end

/-- Python `str(value)` on an embedded JSON value, used in the error
message f-strings (containers approximated by their JSON rendering). -/
def pyStr : JValue → String
  | .null => "None"
  | .bool b => cond b "True" "False"
  | .num n => toString n
  | .str s => s
  | v => dumps v

/-- Python truthiness of a JSON value (`None`, `False`, `0`, the empty
string and empty containers are falsy). -/
def jTruthy : JValue → Bool
  | .null => false
  | .bool b => b
  | .num n => n != 0
  | .str s => !s.isEmpty
  | .arr l => !l.isEmpty
  | .obj l => !l.isEmpty

/-- JSON-RPC error code of a malformed line (`PARSE_ERROR`). -/
def PARSE_ERROR : Int := -32700
/-- JSON-RPC error code of a structurally invalid envelope (reserved). -/
def INVALID_REQUEST : Int := -32600
/-- JSON-RPC error code of an unknown method or unknown tool name. -/
def METHOD_NOT_FOUND : Int := -32601
/-- JSON-RPC error code of a missing required parameter. -/
def INVALID_PARAMS : Int := -32602
/-- JSON-RPC error code of a tool failure or unexpected exception. -/
def INTERNAL_ERROR : Int := -32603

/-- The `MCPError` exception: a JSON-RPC code, a human-readable message
and optional structured data. -/
structure MCPErr where
  code : Int
  message : String
  data : Option JValue := none

/-- Embedding of `MCPError.to_dict`: the JSON-RPC error object, with `data` present
only when it is not `None`. -/
def MCPErr.to_dict (e : MCPErr) : JValue :=
  match e.data with
  | none => .obj [("code", .num e.code), ("message", .str e.message)]
  | some d => .obj [("code", .num e.code), ("message", .str e.message), ("data", d)]

/-- A registered tool as the dispatcher sees it: static metadata plus the
executable capability. `exec` embeds `await tool.execute(**arguments)` as
a function of the arguments object; any exception the call raises
(including a `TypeError` for a missing required keyword) is its `.error`
case, carrying `str(e)`. -/
structure ToolM where
  name : String
  descr : String
  inputSchema : JValue
  exec : List (String × JValue) → Except String JValue

/-- Embedding of `Tool.to_dict`: the descriptor returned by `tools/list`. -/
def ToolM.to_dict (t : ToolM) : JValue :=
  .obj [("name", .str t.name), ("description", .str t.descr),
        ("inputSchema", t.inputSchema)]

/-- The mutable state of `MCPProtocol`: the registry (a dict keyed by tool
name, in insertion order) and the two lifecycle flags. -/
structure ProtoState where
  tools : List (String × ToolM)
  initialized : Bool := false
  running : Bool := false

/-- Insertion into a Python `dict` modelled as an association list:
overwriting an existing key keeps its position, a new key is appended. -/
def dictInsert {α : Type} : List (String × α) → String → α → List (String × α)
  | [], k, v => [(k, v)]
  | (k', v') :: rest, k, v =>
    if k' = k then (k', v) :: rest else (k', v') :: dictInsert rest k v

/-- Embedding of `MCPProtocol.register_tool`: add or overwrite under the tool's name. -/
def register_tool (st : ProtoState) (t : ToolM) : ProtoState :=
  { st with tools := dictInsert st.tools t.name t }

/-- Embedding of `MCPProtocol.list_tools`: descriptors of all registered tools in
registration order. -/
def list_tools (tools : List (String × ToolM)) : JValue :=
  .obj [("tools", .arr (tools.map fun p => p.2.to_dict))]

/-- The success wrapping in `call_tool`: the tool's return value
serialized into a single text-content item. -/
def wrapResult (v : JValue) : JValue :=
  .obj [("content", .arr [.obj [("type", .str "text"), ("text", .str (dumps v))]])]

/-- Embedding of `MCPProtocol.call_tool`: reject a missing (falsy) `params.name` with
`INVALID_PARAMS`, an unregistered name with `METHOD_NOT_FOUND`, and wrap
tool success / normalize tool failure to `INTERNAL_ERROR`. A truthy
non-string name cannot match the string-keyed registry: a hashable one
(number, `True`) yields `METHOD_NOT_FOUND`; an unhashable one (array or
object) makes `dict.get` raise a `TypeError`, which the outer handler
normalizes to `INTERNAL_ERROR` - the embedding produces that error here
since the resulting response is identical. Non-mapping `arguments` make
the `**` call raise inside the `try`, likewise `INTERNAL_ERROR`. -/
def call_tool (tools : List (String × ToolM))
    (params : List (String × JValue)) : Except MCPErr JValue :=
  let nameV := (dictLookup params "name").getD .null
  let argsV := (dictLookup params "arguments").getD (.obj [])
  if !(jTruthy nameV) then .error ⟨INVALID_PARAMS, "Missing tool name", none⟩
  else
    match nameV with
    | .str n =>
      match dictLookup tools n with
      | none => .error ⟨METHOD_NOT_FOUND, "Tool not found: " ++ n, none⟩
      | some t =>
        match argsV with
        | .obj fields =>
          match t.exec fields with
          | .ok v => .ok (wrapResult v)
          | .error msg => .error ⟨INTERNAL_ERROR, msg, none⟩
        | _ => .error ⟨INTERNAL_ERROR, "arguments must be a mapping", none⟩
    | .num n => .error ⟨METHOD_NOT_FOUND, "Tool not found: " ++ toString n, none⟩
    | .bool b =>
      .error ⟨METHOD_NOT_FOUND, "Tool not found: " ++ cond b "True" "False", none⟩
    | _ => .error ⟨INTERNAL_ERROR, "unhashable tool name", none⟩

/-- A request message that parsed to a JSON object: `id`, `method` and
`params` as read by `request.get` (`params` defaults to the empty
object; a non-object `params` value raises outside the scope modelled
here and falls to the loop's fail-stop branch). -/
structure Request where
  id : JValue := .null
  method : JValue := .null
  params : List (String × JValue) := []

/-- Embedding of `MCPProtocol._make_response`: the success envelope. -/
def make_response (request_id : JValue) (result : JValue) : JValue :=
  .obj [("jsonrpc", .str "2.0"), ("id", request_id), ("result", result)]

/-- Embedding of `MCPProtocol._make_error_response`: the error envelope. -/
def make_error_response (request_id : JValue) (e : MCPErr) : JValue :=
  .obj [("jsonrpc", .str "2.0"), ("id", request_id), ("error", e.to_dict)]

/-- The result of `_handle_initialize`: protocol version, capability
object and server identity. -/
def initResult : JValue :=
  .obj [("protocolVersion", .str "2024-11-05"),
        ("capabilities", .obj [("tools", .obj [])]),
        ("serverInfo", .obj [("name", .str "mcp-server"),
                             ("version", .str "0.1.0")])]

/-- The method routing of `handle_request` (the body of its `try` block):
the new dispatcher state together with the result, or the `MCPError` the
branch raises. Only `tools/call` can fail, and it does not change the
dispatcher state, so separating state change from failure is faithful. -/
def dispatch (st : ProtoState) (req : Request) :
    ProtoState × Except MCPErr JValue :=
  match req.method with
  | .str m =>
    if m = "initialize" then ({ st with initialized := true }, .ok initResult)
    else if m = "tools/list" then (st, .ok (list_tools st.tools))
    else if m = "tools/call" then (st, call_tool st.tools req.params)
    else if m = "shutdown" then ({ st with running := false }, .ok (.obj []))
    else (st, .error ⟨METHOD_NOT_FOUND, "Unknown method: " ++ m, none⟩)
  | m => (st, .error ⟨METHOD_NOT_FOUND, "Unknown method: " ++ pyStr m, none⟩)

/-- Embedding of `MCPProtocol.handle_request`: route the request and funnel every
outcome through one response envelope, catching any signaled `MCPError`
(and, in the source, any unexpected exception, re-signaled there as
`INTERNAL_ERROR` - in the embedding every failure already surfaces as an
`MCPError`) into an error envelope carrying the echoed id. -/
def handle_request (st : ProtoState) (req : Request) : ProtoState × JValue :=
  match dispatch st req with
  | (st', .ok result) => (st', make_response req.id result)
  | (st', .error e) => (st', make_error_response req.id e)

/-- One line of the input stream as the read loop classifies it: blank
after stripping (skipped), a line `json.loads` rejects (its
`JSONDecodeError` message), or a parsed request object. -/
inductive Line where
  | empty
  | malformed (msg : String)
  | request (req : Request)

/-- One iteration body of `MCPProtocol.run`: the successor state and the
response written to stdout, if any. -/
def runStep (st : ProtoState) : Line → ProtoState × Option JValue
  | .empty => (st, none)
  | .malformed msg =>
    (st, some (make_error_response .null ⟨PARSE_ERROR, msg, none⟩))
  | .request req =>
    let r := handle_request st req
    (r.1, some r.2)

/-- The `while self._running` read loop of `MCPProtocol.run` over a
finite input stream (the end of the list is end-of-stream); returns the
sequence of responses written to stdout. -/
def runLoop : ProtoState → List Line → List JValue
  | _, [] => []
  | st, l :: rest =>
    if st.running then
      match runStep st l with
      | (st', none) => runLoop st' rest
      | (st', some out) => out :: runLoop st' rest
    else []

/-- Embedding of `MCPProtocol.run`: set the running flag, then consume the stream. -/
def runServer (st : ProtoState) (input : List Line) : List JValue :=
  runLoop { st with running := true } input

/-! ### Envelope predicates and protocol theorems -/

/-- The response is the success envelope for correlation id `rid`. -/
def IsSuccessEnv (resp rid : JValue) : Prop :=
  ∃ r, resp = make_response rid r

/-- The response is the error envelope for correlation id `rid`. -/
def IsErrorEnv (resp rid : JValue) : Prop :=
  ∃ e : MCPErr, resp = make_error_response rid e

/-- A `tools/call`-shaped request whose method is the literal string. -/
def initReq (rid : JValue) (ps : List (String × JValue)) : Request :=
  { id := rid, method := .str "initialize", params := ps }

/-- C1: for every dispatcher state and request object, `handle_request`
returns exactly one response envelope carrying the echoed correlation id
and exactly one of `result` or `error`; every failure signaled during
routing is caught and becomes the error envelope (in the source,
unexpected exceptions are first normalized to `INTERNAL_ERROR`
`MCPError`s, which this same funnel then returns), so `handle_request` is
a total function that never escapes with an exception. -/
theorem handle_request_envelope (st : ProtoState) (req : Request) :
    (IsSuccessEnv (handle_request st req).2 req.id ∨
      IsErrorEnv (handle_request st req).2 req.id) ∧
    ¬(IsSuccessEnv (handle_request st req).2 req.id ∧
      IsErrorEnv (handle_request st req).2 req.id) ∧
    (∀ e, (dispatch st req).2 = .error e →
      (handle_request st req).2 = make_error_response req.id e) ∧
    (∀ r, (dispatch st req).2 = .ok r →
      (handle_request st req).2 = make_response req.id r) := by
  have huniq : ∀ resp : JValue, ¬(IsSuccessEnv resp req.id ∧ IsErrorEnv resp req.id) := by
    rintro resp ⟨⟨r, hr⟩, ⟨e, he⟩⟩
    subst hr
    simp [make_response, make_error_response] at he
  unfold handle_request
  rcases dispatch st req with ⟨st', e | r⟩
  · refine ⟨Or.inr ⟨e, rfl⟩, huniq _, ?_, ?_⟩
    · intro e' he'
      cases he'
      rfl
    · intro r hr
      cases hr
  · refine ⟨Or.inl ⟨r, rfl⟩, huniq _, ?_, ?_⟩
    · intro e' he'
      cases he'
    · intro r' hr
      cases hr
      rfl

/-- Witness for C1 at a concrete input: an unknown method is answered
with an error envelope echoing the request id. -/
theorem handle_request_envelope_witness :
    (dispatch ⟨[], false, false⟩ ⟨.str "7", .str "nope", []⟩).2 =
      .error ⟨METHOD_NOT_FOUND, "Unknown method: nope", none⟩ ∧
    (handle_request ⟨[], false, false⟩ ⟨.str "7", .str "nope", []⟩).2 =
      make_error_response (.str "7")
        ⟨METHOD_NOT_FOUND, "Unknown method: nope", none⟩ := by
  have h : (dispatch ⟨[], false, false⟩ ⟨.str "7", .str "nope", []⟩).2 =
      .error ⟨METHOD_NOT_FOUND, "Unknown method: nope", none⟩ := by
    simp [dispatch]
  exact ⟨h, (handle_request_envelope ⟨[], false, false⟩
    ⟨.str "7", .str "nope", []⟩).2.2.1 _ h⟩

/-- C3: `tools/call` routing in `call_tool`: an absent `name` signals
`INVALID_PARAMS`; a name not in the registry signals `METHOD_NOT_FOUND`;
with a registered name, a failing tool execution (a missing required
argument included, since the `TypeError` of the `**`-call is raised
inside the same `try`) is caught and re-signaled as `INTERNAL_ERROR`
carrying the failure's description, and a successful one is wrapped as a
single text-content item containing the serialized return value. -/
theorem call_tool_spec (tools : List (String × ToolM))
    (params : List (String × JValue)) :
    (dictLookup params "name" = none →
      call_tool tools params = .error ⟨INVALID_PARAMS, "Missing tool name", none⟩) ∧
    (∀ n, dictLookup params "name" = some (.str n) → n ≠ "" →
      dictLookup tools n = none →
      call_tool tools params =
        .error ⟨METHOD_NOT_FOUND, "Tool not found: " ++ n, none⟩) ∧
    (∀ n t fields, dictLookup params "name" = some (.str n) → n ≠ "" →
      dictLookup tools n = some t →
      (dictLookup params "arguments").getD (.obj []) = .obj fields →
      (∀ msg, t.exec fields = .error msg →
        call_tool tools params = .error ⟨INTERNAL_ERROR, msg, none⟩) ∧
      (∀ v, t.exec fields = .ok v →
        call_tool tools params = .ok (wrapResult v))) := by
  refine ⟨?_, ?_, ?_⟩
  · intro hname
    simp [call_tool, hname, jTruthy]
  · intro n hname hne hlook
    have hempty : n.isEmpty = false := by
      rcases h : n.isEmpty with _ | _
      · rfl
      · exact absurd ((String.isEmpty_iff n).mp h) hne
    simp [call_tool, hname, jTruthy, hempty, hlook]
  · intro n t fields hname hne hlook hargs
    have hempty : n.isEmpty = false := by
      rcases h : n.isEmpty with _ | _
      · rfl
      · exact absurd ((String.isEmpty_iff n).mp h) hne
    constructor
    · intro msg hmsg
      simp [call_tool, hname, jTruthy, hempty, hlook, hargs, hmsg]
    · intro v hv
      simp [call_tool, hname, jTruthy, hempty, hlook, hargs, hv]

/-- Witness for C3 at concrete inputs: a missing name, an unregistered
name, and a registered tool whose execution fails. -/
theorem call_tool_spec_witness :
    call_tool [] [] = .error ⟨INVALID_PARAMS, "Missing tool name", none⟩ ∧
    call_tool [] [("name", .str "t")] =
      .error ⟨METHOD_NOT_FOUND, "Tool not found: t", none⟩ ∧
    call_tool [("t", ⟨"t", "d", .obj [], fun _ => .error "boom"⟩)]
        [("name", .str "t")] =
      .error ⟨INTERNAL_ERROR, "boom", none⟩ := by
  exact ⟨(call_tool_spec [] []).1 rfl,
    (call_tool_spec [] [("name", .str "t")]).2.1 "t"
      (by simp [dictLookup]) (by decide) rfl,
    ((call_tool_spec [("t", ⟨"t", "d", .obj [], fun _ => .error "boom"⟩)]
        [("name", .str "t")]).2.2 "t"
      ⟨"t", "d", .obj [], fun _ => .error "boom"⟩ []
      (by simp [dictLookup]) (by decide)
      (by simp [dictLookup]) (by simp [dictLookup])).1 "boom" rfl⟩

/-- C9: from every dispatcher state, an `initialize` request never fails
and is idempotent: after one or two calls the flag is set both times, the
two responses are equal, and each is the success envelope containing the
protocol version string, a capability object and the server identity. -/
theorem init_idempotent (st : ProtoState) (rid : JValue)
    (ps : List (String × JValue)) :
    (handle_request st (initReq rid ps)).1.initialized = true ∧
    (handle_request (handle_request st (initReq rid ps)).1
      (initReq rid ps)).1.initialized = true ∧
    (handle_request (handle_request st (initReq rid ps)).1
      (initReq rid ps)).2 = (handle_request st (initReq rid ps)).2 ∧
    (handle_request st (initReq rid ps)).2 = make_response rid initResult ∧
    dictLookup [("protocolVersion", JValue.str "2024-11-05"),
        ("capabilities", JValue.obj [("tools", JValue.obj [])]),
        ("serverInfo", JValue.obj [("name", JValue.str "mcp-server"),
          ("version", JValue.str "0.1.0")])] "protocolVersion" =
      some (JValue.str "2024-11-05") ∧
    initResult = .obj [("protocolVersion", JValue.str "2024-11-05"),
        ("capabilities", JValue.obj [("tools", JValue.obj [])]),
        ("serverInfo", JValue.obj [("name", JValue.str "mcp-server"),
          ("version", JValue.str "0.1.0")])] := by
  refine ⟨?_, ?_, ?_, ?_, ?_, ?_⟩ <;>
    simp [handle_request, dispatch, initReq, initResult, dictLookup]

/-- C8: in the read loop, a line that fails structural parsing produces a
`PARSE_ERROR` response with a null correlation id, leaves the dispatcher
state unchanged, and does not terminate the loop: the remaining lines are
processed exactly as they would have been, and in particular a following
well-formed request is answered by `handle_request`. -/
theorem run_loop_parse_error (st : ProtoState) (msg : String)
    (rest : List Line) :
    st.running = true →
    runLoop st (Line.malformed msg :: rest) =
      make_error_response .null ⟨PARSE_ERROR, msg, none⟩ :: runLoop st rest ∧
    (∀ req rest2,
      runLoop st (Line.malformed msg :: Line.request req :: rest2) =
        make_error_response .null ⟨PARSE_ERROR, msg, none⟩ ::
          (handle_request st req).2 ::
            runLoop (handle_request st req).1 rest2) ∧
    make_error_response .null ⟨PARSE_ERROR, msg, none⟩ =
      .obj [("jsonrpc", .str "2.0"), ("id", .null),
            ("error", .obj [("code", .num PARSE_ERROR),
                            ("message", .str msg)])] := by
  intro hrun
  refine ⟨?_, ?_, ?_⟩
  · simp [runLoop, runStep, hrun]
  · intro req rest2
    simp [runLoop, runStep, hrun]
  · simp [make_error_response, MCPErr.to_dict]

/-- Witness for C8 at a concrete input: a malformed line followed by an
`initialize` request yields the parse error and then the answer to the
request. -/
theorem run_loop_parse_error_witness :
    runLoop ⟨[], false, true⟩
        [Line.malformed "bad", Line.request (initReq .null [])] =
      [make_error_response .null ⟨PARSE_ERROR, "bad", none⟩,
        make_response .null initResult] := by
  have h := (run_loop_parse_error ⟨[], false, true⟩ "bad" [] rfl).2.1
    (initReq .null []) []
  rw [h]
  simp [handle_request, dispatch, initReq, runLoop]

/-! ### Supporting lemmas on the string and set embeddings -/

/-- Two characters are equal iff their code points are. -/
theorem char_toNat_inj {a b : Char} : a.toNat = b.toNat ↔ a = b :=
  ⟨fun h => Char.eq_of_val_eq (UInt32.eq_of_toBitVec_eq (BitVec.eq_of_toNat_eq h)),
   fun h => h ▸ rfl⟩

/-- Whitespace classification in terms of the code point. -/
theorem isWhitespace_toNat (c : Char) :
    c.isWhitespace =
      (decide (c.toNat = 32) || decide (c.toNat = 9) ||
       decide (c.toNat = 13) || decide (c.toNat = 10)) := by
  have e1 : (c = ' ') ↔ c.toNat = 32 := char_toNat_inj.symm
  have e2 : (c = '\t') ↔ c.toNat = 9 := char_toNat_inj.symm
  have e3 : (c = '\r') ↔ c.toNat = 13 := char_toNat_inj.symm
  have e4 : (c = '\n') ↔ c.toNat = 10 := char_toNat_inj.symm
  simp only [Char.isWhitespace]
  rw [decide_eq_decide.mpr e1, decide_eq_decide.mpr e2,
    decide_eq_decide.mpr e3, decide_eq_decide.mpr e4]

/-- ASCII case folding does not change whether a character is whitespace. -/
theorem toLower_isWhitespace (c : Char) :
    c.toLower.isWhitespace = c.isWhitespace := by
  show (if c.toNat ≥ 65 ∧ c.toNat ≤ 90 then Char.ofNat (c.toNat + 32)
    else c).isWhitespace = c.isWhitespace
  split
  · rename_i h
    have h65 : 65 ≤ c.toNat := h.1
    have h90 : c.toNat ≤ 90 := h.2
    have hval : (c.toNat + 32).isValidChar := Or.inl (by omega)
    have hv : (Char.ofNat (c.toNat + 32)).toNat = c.toNat + 32 := by
      rw [Char.ofNat, dif_pos hval]
      rfl
    rw [isWhitespace_toNat, isWhitespace_toNat, hv]
    rw [decide_eq_false (by omega : ¬(c.toNat + 32 = 32)),
      decide_eq_false (by omega : ¬(c.toNat + 32 = 9)),
      decide_eq_false (by omega : ¬(c.toNat + 32 = 13)),
      decide_eq_false (by omega : ¬(c.toNat + 32 = 10)),
      decide_eq_false (by omega : ¬(c.toNat = 32)),
      decide_eq_false (by omega : ¬(c.toNat = 9)),
      decide_eq_false (by omega : ¬(c.toNat = 13)),
      decide_eq_false (by omega : ¬(c.toNat = 10))]
  · rfl

/-- Case folding a string commutes with whitespace tokenization
(auxiliary form, tracking the token accumulator). -/
theorem pySplitAux_lower (s : Str) :
    ∀ acc, pySplitAux (lowerStr s) (lowerStr acc) =
      (pySplitAux s acc).map lowerStr := by
  induction s with
  | nil =>
    intro acc
    cases acc <;> simp [pySplitAux, lowerStr]
  | cons c t ih =>
    intro acc
    simp only [lowerStr, List.map_cons, pySplitAux, toLower_isWhitespace]
    by_cases hw : c.isWhitespace
    · cases acc with
      | nil =>
        simpa [hw, lowerStr] using ih []
      | cons a as =>
        have htail := ih []
        simp only [lowerStr, List.map_nil] at htail
        simp [hw, htail, lowerStr, List.map_reverse, List.map_append]
    · simpa [hw, lowerStr] using ih (c :: acc)

/-- Case folding a string commutes with Python's whitespace `split`. -/
theorem pySplit_lower (s : Str) :
    pySplit (lowerStr s) = (pySplit s).map lowerStr := by
  simpa [lowerStr] using pySplitAux_lower s []

/-- Membership in the set-insertion of the Python-set embedding. -/
theorem mem_setInsert {l : List Str} {x y : Str} :
    x ∈ setInsert l y ↔ x ∈ l ∨ x = y := by
  unfold setInsert
  split
  · rename_i hy
    exact ⟨Or.inl, fun h => h.elim id fun hx => hx ▸ hy⟩
  · simp

/-- Set insertion preserves duplicate-freeness. -/
theorem nodup_setInsert {l : List Str} {y : Str} (h : l.Nodup) :
    (setInsert l y).Nodup := by
  unfold setInsert
  split
  · exact h
  · rename_i hy
    rw [← List.concat_eq_append]
    exact h.concat hy

/-- Membership after folding `setInsert` over a list of elements. -/
theorem mem_foldl_setInsert (l : List Str) (acc : List Str) (x : Str) :
    x ∈ l.foldl setInsert acc ↔ x ∈ acc ∨ x ∈ l := by
  induction l generalizing acc with
  | nil => simp
  | cons a t ih =>
    rw [List.foldl_cons, ih, mem_setInsert]
    simp only [List.mem_cons]
    tauto

/-- Folding `setInsert` preserves duplicate-freeness. -/
theorem nodup_foldl_setInsert (l : List Str) (acc : List Str)
    (h : acc.Nodup) : (l.foldl setInsert acc).Nodup := by
  induction l generalizing acc with
  | nil => exact h
  | cons a t ih => exact ih _ (nodup_setInsert h)

/-- Membership after folding a mapped `setInsert` over a list. -/
theorem mem_foldl_setInsert_map (f : Str → Str) (l : List Str)
    (acc : List Str) (x : Str) :
    x ∈ l.foldl (fun acc kw => setInsert acc (f kw)) acc ↔
      x ∈ acc ∨ ∃ y ∈ l, x = f y := by
  induction l generalizing acc with
  | nil => simp
  | cons a t ih =>
    rw [List.foldl_cons, ih, mem_setInsert]
    simp only [List.mem_cons]
    constructor
    · rintro (⟨h | h⟩ | ⟨y, hy, hxy⟩)
      · exact Or.inl h
      · exact Or.inr ⟨a, Or.inl rfl, h⟩
      · exact Or.inr ⟨y, Or.inr hy, hxy⟩
    · rintro (h | ⟨y, h | h, hxy⟩)
      · exact Or.inl (Or.inl h)
      · exact Or.inl (Or.inr (h ▸ hxy))
      · exact Or.inr ⟨y, h, hxy⟩

/-- Membership after folding the conditional keyword-insertion step of
`_extract_keywords` over the content tokens. -/
theorem mem_foldl_keywordStep (toks : List Str) (acc : List Str) (x : Str) :
    x ∈ toks.foldl
        (fun acc w =>
          if 3 ≤ (cleanWord w).length then setInsert acc (cleanWord w)
          else acc) acc ↔
      x ∈ acc ∨ ∃ w ∈ toks, x = cleanWord w ∧ 3 ≤ (cleanWord w).length := by
  induction toks generalizing acc with
  | nil => simp
  | cons a t ih =>
    rw [List.foldl_cons, ih]
    by_cases h3 : 3 ≤ (cleanWord a).length
    · rw [if_pos h3, mem_setInsert]
      simp only [List.mem_cons]
      constructor
      · rintro (⟨h | h⟩ | ⟨w, hw, hxw, hlw⟩)
        · exact Or.inl h
        · exact Or.inr ⟨a, Or.inl rfl, h, h3⟩
        · exact Or.inr ⟨w, Or.inr hw, hxw, hlw⟩
      · rintro (h | ⟨w, h | h, hxw, hlw⟩)
        · exact Or.inl (Or.inl h)
        · exact Or.inl (Or.inr (h ▸ hxw))
        · exact Or.inr ⟨w, h, hxw, hlw⟩
    · rw [if_neg h3]
      simp only [List.mem_cons]
      constructor
      · rintro (h | ⟨w, hw, hxw, hlw⟩)
        · exact Or.inl h
        · exact Or.inr ⟨w, Or.inr hw, hxw, hlw⟩
      · rintro (h | ⟨w, h | h, hxw, hlw⟩)
        · exact Or.inl h
        · exact absurd (h ▸ hlw) h3
        · exact Or.inr ⟨w, h, hxw, hlw⟩

/-- C4: the keyword set derived for a record is exactly the union of (a)
its explicit tags, case-folded, and (b) every whitespace-delimited token
of its content, case-folded and stripped of non-alphanumeric characters,
retained only when the stripped length is at least 3. -/
theorem extract_keywords_spec (item : Record) (x : Str) :
    x ∈ extract_keywords item ↔
      (∃ tag ∈ item.keywords, x = lowerStr tag) ∨
      (∃ tok ∈ pySplit item.content,
        x = cleanWord (lowerStr tok) ∧ 3 ≤ x.length) := by
  unfold extract_keywords
  rw [mem_foldl_keywordStep, mem_foldl_setInsert_map, pySplit_lower]
  simp only [List.mem_map, List.mem_nil_iff, false_or]
  constructor
  · rintro (h | ⟨w, ⟨tok, htok, rfl⟩, hxw, hlw⟩)
    · exact Or.inl h
    · exact Or.inr ⟨tok, htok, hxw, hxw ▸ hlw⟩
  · rintro (h | ⟨tok, htok, hxw, hlw⟩)
    · exact Or.inl h
    · exact Or.inr ⟨lowerStr tok, ⟨tok, htok, rfl⟩, hxw, hxw ▸ hlw⟩

/-! ### Search, get, round-trip and index-invariant theorems -/

/-- Membership in the index scan of `memory.search` (auxiliary form). -/
theorem mem_collectAux (index : List (Str × List Str)) (q : Str)
    (acc : List Str) (x : Str) :
    x ∈ index.foldl
        (fun acc p => if q <:+: p.1 then p.2.foldl setInsert acc else acc)
        acc ↔
      x ∈ acc ∨ ∃ kw ids, (kw, ids) ∈ index ∧ q <:+: kw ∧ x ∈ ids := by
  induction index generalizing acc with
  | nil => simp
  | cons p t ih =>
    rcases p with ⟨kw, ids⟩
    rw [List.foldl_cons, ih]
    by_cases h : q <:+: kw
    · rw [if_pos h, mem_foldl_setInsert]
      simp only [List.mem_cons, Prod.mk.injEq]
      constructor
      · rintro (⟨hx | hx⟩ | ⟨kw', ids', ht, hq, hx⟩)
        · exact Or.inl hx
        · exact Or.inr ⟨kw, ids, Or.inl ⟨rfl, rfl⟩, h, hx⟩
        · exact Or.inr ⟨kw', ids', Or.inr ht, hq, hx⟩
      · rintro (hx | ⟨kw', ids', ⟨rfl, rfl⟩ | ht, hq, hx⟩)
        · exact Or.inl (Or.inl hx)
        · exact Or.inl (Or.inr hx)
        · exact Or.inr ⟨kw', ids', ht, hq, hx⟩
    · rw [if_neg h]
      simp only [List.mem_cons, Prod.mk.injEq]
      constructor
      · rintro (hx | ⟨kw', ids', ht, hq, hx⟩)
        · exact Or.inl hx
        · exact Or.inr ⟨kw', ids', Or.inr ht, hq, hx⟩
      · rintro (hx | ⟨kw', ids', ⟨rfl, rfl⟩ | ht, hq, hx⟩)
        · exact Or.inl hx
        · exact absurd hq h
        · exact Or.inr ⟨kw', ids', ht, hq, hx⟩

/-- The index scan accumulates a duplicate-free list (auxiliary form). -/
theorem nodup_collectAux (index : List (Str × List Str)) (q : Str) :
    ∀ acc : List Str, acc.Nodup →
      (index.foldl
        (fun acc p => if q <:+: p.1 then p.2.foldl setInsert acc else acc)
        acc).Nodup := by
  induction index with
  | nil => intro acc h; exact h
  | cons p t ih =>
    intro acc h
    rw [List.foldl_cons]
    by_cases hq : q <:+: p.1
    · rw [if_pos hq]
      exact ih _ (nodup_foldl_setInsert _ _ h)
    · rw [if_neg hq]
      exact ih _ h

/-- C2: `memory.search` case-folds the query; a blank (empty or
whitespace-only) query returns the empty result immediately; otherwise
the matching set is the deduplicated collection of the record ids of
every index keyword that contains the case-folded query as a substring,
and the result list is obtained by truncating that set to the first
`top_k` ids, loading each and silently skipping ids whose record no
longer exists, with `count` equal to the number of returned results. -/
theorem memory_search_spec (fs : MemFS) (query : Str) (k : Int) :
    (isBlank query = true → memorySearch fs query k = ⟨[], 0⟩) ∧
    (isBlank query = false →
      (collectMatching fs.index (lowerStr query)).Nodup ∧
      (∀ id, id ∈ collectMatching fs.index (lowerStr query) ↔
        ∃ kw ids, (kw, ids) ∈ fs.index ∧ lowerStr query <:+: kw ∧ id ∈ ids) ∧
      (memorySearch fs query k).results =
        (pyTake (collectMatching fs.index (lowerStr query)) k).filterMap
          (searchLoad fs.items) ∧
      (memorySearch fs query k).count =
        (memorySearch fs query k).results.length) := by
  constructor
  · intro h
    simp [memorySearch, h]
  · intro h
    refine ⟨nodup_collectAux _ _ [] List.nodup_nil, ?_, ?_, ?_⟩
    · intro id
      simpa using mem_collectAux fs.index (lowerStr query) [] id
    · simp [memorySearch, h]
    · simp [memorySearch, h]

/-- String-literal fixture helper for the concrete witnesses. -/
def sstr (s : String) : Str := s.data

/-- Record fixture for the concrete witnesses. -/
def recW : Record :=
  ⟨sstr "mem_x", sstr "t", sstr "t", sstr "Hello world", []⟩

/-- Filesystem fixture for the concrete witnesses. -/
def fsW : MemFS :=
  ⟨[(sstr "mem_x", recW)], [(sstr "hello", [sstr "mem_x"])]⟩

/-- Witness for C2 at a concrete input: a non-blank query whose matching
set contains the indexed record, with `count` equal to the result list
length. -/
theorem memory_search_spec_witness :
    isBlank (sstr "hello") = false ∧
    (memorySearch fsW (sstr "hello") 5).count =
      (memorySearch fsW (sstr "hello") 5).results.length ∧
    sstr "mem_x" ∈ collectMatching fsW.index (lowerStr (sstr "hello")) := by
  have hb : isBlank (sstr "hello") = false := by decide
  have h := (memory_search_spec fsW (sstr "hello") 5).2 hb
  exact ⟨hb, h.2.2.2, (h.2.1 _).mpr
    ⟨sstr "hello", [sstr "mem_x"], by decide, by decide, by decide⟩⟩

/-- C10: with a non-blank query, `top_k = 0` yields the empty result set
(`l[:0]` is empty), and a negative `top_k` is neither rejected nor
unlimited: by Python slice semantics `l[:k]` it keeps all but the last
`|top_k|` matching identifiers. -/
theorem memory_search_topk (fs : MemFS) (q : Str) (k : Int)
    (h : isBlank q = false) :
    memorySearch fs q 0 = ⟨[], 0⟩ ∧
    (k < 0 →
      (memorySearch fs q k).results =
        ((collectMatching fs.index (lowerStr q)).take
            ((collectMatching fs.index (lowerStr q)).length - k.natAbs)).filterMap
          (searchLoad fs.items)) := by
  constructor
  · simp [memorySearch, h, pyTake]
  · intro hk
    have hnn : ¬(0 ≤ k) := by omega
    have habs : (-k).toNat = k.natAbs := by omega
    simp [memorySearch, h, pyTake, hnn, habs]

/-- Second record fixture for the negative-`top_k` witness. -/
def recW2 : Record :=
  ⟨sstr "mem_y", sstr "t", sstr "t", sstr "abc def", []⟩

/-- Filesystem fixture with two matching keywords for the
negative-`top_k` witness. -/
def fsW3 : MemFS :=
  ⟨[(sstr "mem_x", recW), (sstr "mem_y", recW2)],
   [(sstr "ab", [sstr "mem_x"]), (sstr "abc", [sstr "mem_y"])]⟩

/-- Witness for C10 at a concrete input: with two matching identifiers,
`top_k = 0` returns nothing and `top_k = -1` returns exactly the first
match, dropping the last one. -/
theorem memory_search_topk_witness :
    memorySearch fsW3 (sstr "ab") 0 = ⟨[], 0⟩ ∧
    (memorySearch fsW3 (sstr "ab") (-1)).results =
      ((collectMatching fsW3.index (lowerStr (sstr "ab"))).take
          ((collectMatching fsW3.index (lowerStr (sstr "ab"))).length -
            Int.natAbs (-1))).filterMap (searchLoad fsW3.items) ∧
    (memorySearch fsW3 (sstr "ab") (-1)).results =
      [⟨sstr "mem_x", sstr "Hello world", []⟩] := by
  have h := memory_search_topk fsW3 (sstr "ab") (-1) (by decide)
  exact ⟨h.1, h.2 (by omega), by decide⟩

/-- C5: `memory.get` fails exactly when the `memory_id` argument is
absent or empty; for every non-empty id it returns the looked-up record
when one is persisted and `memory = None` when none is, never raising
for a nonexistent id. -/
theorem memory_get_spec (fs : MemFS) (arg : Option Str) :
    ((∃ e, memoryGet fs arg = .error e) ↔ arg = none ∨ arg = some []) ∧
    (∀ mid, arg = some mid → mid ≠ [] →
      memoryGet fs arg = .ok ⟨storeRead fs.items mid⟩) ∧
    (∀ mid r, arg = some mid → mid ≠ [] → storeRead fs.items mid = some r →
      memoryGet fs arg = .ok ⟨some r⟩) ∧
    (∀ mid, arg = some mid → mid ≠ [] → storeRead fs.items mid = none →
      memoryGet fs arg = .ok ⟨none⟩) := by
  rcases arg with _ | mid
  · simp [memoryGet]
  · rcases mid with _ | ⟨c, cs⟩
    · refine ⟨by simp [memoryGet], ?_, ?_, ?_⟩
      · intro mid h hne
        injection h with h2
        exact absurd h2.symm hne
      · intro mid r h hne _
        injection h with h2
        exact absurd h2.symm hne
      · intro mid h hne _
        injection h with h2
        exact absurd h2.symm hne
    · simp only [memoryGet, List.isEmpty_cons, Bool.false_eq_true,
        if_false, Option.some.injEq]
      refine ⟨?_, ?_, ?_, ?_⟩
      · constructor
        · rintro ⟨e, he⟩
          cases he
        · rintro (h | h) <;> cases h
      · rintro mid rfl _
        rfl
      · rintro mid r rfl _ hr
        rw [hr]
      · rintro mid rfl _ hr
        rw [hr]

/-- Witness for C5 at concrete inputs: an existing id is returned, a
nonexistent id yields `memory = None` without an error. -/
theorem memory_get_spec_witness :
    memoryGet fsW (some (sstr "mem_x")) = .ok ⟨some recW⟩ ∧
    memoryGet fsW (some (sstr "mem_y")) = .ok ⟨none⟩ := by
  constructor
  · exact (memory_get_spec fsW (some (sstr "mem_x"))).2.2.1 _ recW rfl
      (by decide) (by decide)
  · exact (memory_get_spec fsW (some (sstr "mem_y"))).2.2.2 _ rfl
      (by decide) (by decide)

/-- C6: writing a record with non-empty content and a tag list and then
getting it by the returned `memory_id` reproduces a record with exactly
the written content and exactly the given tags as keywords. -/
theorem memory_write_get_roundtrip (fs : MemFS) (rp now content : Str)
    (tags : List Str) (h : content ≠ []) :
    ∃ fs', memoryWrite fs rp now content (some tags) =
        .ok (fs', ⟨genMemoryId rp, true⟩) ∧
      memoryGet fs' (some (genMemoryId rp)) =
        .ok ⟨some ⟨genMemoryId rp, now, now, content, tags⟩⟩ := by
  have hne : content.isEmpty = false := by
    cases content with
    | nil => exact absurd rfl h
    | cons c cs => rfl
  have htags : tagsOrEmpty (some tags) = tags := by
    cases tags <;> simp [tagsOrEmpty]
  refine ⟨⟨storeWrite fs.items (genMemoryId rp)
      ⟨genMemoryId rp, now, now, content, tags⟩,
    updateKeywordIndex fs.index
      ⟨genMemoryId rp, now, now, content, tags⟩⟩, ?_, ?_⟩
  · simp [memoryWrite, hne, htags]
  · simp [memoryGet, genMemoryId, storeRead, storeWrite, dictLookup]

/-- The filesystem produced by the round-trip witness write. -/
def fsW2 : MemFS :=
  ⟨[(sstr "mem_x", ⟨sstr "mem_x", sstr "t", sstr "t", sstr "abc", []⟩)],
   [(sstr "abc", [sstr "mem_x"])]⟩

/-- Witness for C6 at a concrete input: writing content `abc` with no
tags into the empty store and reading the returned id back. -/
theorem memory_write_get_roundtrip_witness :
    (sstr "abc" ≠ ([] : Str)) ∧
    memoryGet fsW2 (some (genMemoryId (sstr "x"))) =
      .ok ⟨some ⟨genMemoryId (sstr "x"), sstr "t", sstr "t", sstr "abc", []⟩⟩ := by
  refine ⟨by decide, ?_⟩
  obtain ⟨fs', h1, h2⟩ := memory_write_get_roundtrip ⟨[], []⟩ (sstr "x")
    (sstr "t") (sstr "abc") [] (by decide)
  have h3 : memoryWrite ⟨[], []⟩ (sstr "x") (sstr "t") (sstr "abc")
      (some []) = .ok (fsW2, ⟨genMemoryId (sstr "x"), true⟩) := by rfl
  rw [h1] at h3
  simp only [Except.ok.injEq, Prod.mk.injEq] at h3
  rw [← h3.1]
  exact h2

/-- The persisted-index invariant of the spec: every identifier appearing
under any keyword references an existing record, and each keyword's
id-list is duplicate-free. -/
def IndexOK (fs : MemFS) : Prop :=
  ∀ p ∈ fs.index, p.2.Nodup ∧ ∀ id ∈ p.2, (storeRead fs.items id).isSome = true

/-- Overwriting one record file never makes another record unreadable. -/
theorem storeRead_write_isSome (items : List (Str × Record)) (nid : Str)
    (nr : Record) (id : Str)
    (h : (storeRead items id).isSome = true) :
    (storeRead (storeWrite items nid nr) id).isSome = true := by
  unfold storeRead storeWrite dictLookup
  split
  · rfl
  · exact h

/-- The step `indexAdd` preserves per-keyword duplicate-freeness and any property
shared by all indexed ids and the added id. -/
theorem indexAdd_ok (P : Str → Prop) (ix : List (Str × List Str))
    (kw nid : Str)
    (hall : ∀ p ∈ ix, p.2.Nodup ∧ ∀ id ∈ p.2, P id) (hP : P nid) :
    ∀ p ∈ indexAdd ix kw nid, p.2.Nodup ∧ ∀ id ∈ p.2, P id := by
  induction ix with
  | nil =>
    intro p hp
    simp only [indexAdd, List.mem_singleton] at hp
    subst hp
    exact ⟨List.nodup_singleton _, by simpa using hP⟩
  | cons q t ih =>
    intro p hp
    rcases q with ⟨k, ids⟩
    rcases hall ⟨k, ids⟩ (List.mem_cons_self _ _) with ⟨hnd, hids⟩
    have hall' : ∀ p ∈ t, p.2.Nodup ∧ ∀ id ∈ p.2, P id :=
      fun p hp => hall p (List.mem_cons_of_mem _ hp)
    by_cases hk : k = kw
    · rw [indexAdd, if_pos hk] at hp
      rcases List.mem_cons.mp hp with hp | hp
      · subst hp
        by_cases hmem : nid ∈ ids
        · rw [if_pos hmem]
          exact ⟨hnd, hids⟩
        · rw [if_neg hmem]
          refine ⟨?_, ?_⟩
          · rw [← List.concat_eq_append]
            exact hnd.concat hmem
          · intro id hid
            rcases List.mem_append.mp hid with hid | hid
            · exact hids id hid
            · rw [List.mem_singleton.mp hid]
              exact hP
      · exact hall' p hp
    · rw [indexAdd, if_neg hk] at hp
      rcases List.mem_cons.mp hp with hp | hp
      · subst hp
        exact ⟨hnd, hids⟩
      · exact ih hall' p hp

/-- Folding `indexAdd` over a keyword list preserves the invariant. -/
theorem updateIndex_ok (P : Str → Prop) (kws : List Str) :
    ∀ (ix : List (Str × List Str)) (nid : Str),
      (∀ p ∈ ix, p.2.Nodup ∧ ∀ id ∈ p.2, P id) → P nid →
      ∀ p ∈ kws.foldl (fun a kw => indexAdd a kw nid) ix,
        p.2.Nodup ∧ ∀ id ∈ p.2, P id := by
  induction kws with
  | nil => intro ix nid h _ p hp; exact h p hp
  | cons kw t ih =>
    intro ix nid h hP
    rw [List.foldl_cons]
    exact ih _ _ (indexAdd_ok P ix kw nid h hP) hP

/-- C7: every successful `memory.write` preserves the index invariant:
afterwards every identifier under any keyword of the persisted index
references an existing persisted record (the record file is written
before the index update and nothing deletes records), and no identifier
appears twice in a single keyword's id-list. -/
theorem memory_write_index_invariant (fs : MemFS) (rp now content : Str)
    (tags : Option (List Str)) (fs' : MemFS) (res : WriteResult)
    (hok : IndexOK fs)
    (hw : memoryWrite fs rp now content tags = .ok (fs', res)) :
    IndexOK fs' := by
  unfold memoryWrite at hw
  by_cases hc : content.isEmpty = true
  · rw [if_pos hc] at hw
    cases hw
  · rw [if_neg hc] at hw
    simp only [Except.ok.injEq, Prod.mk.injEq] at hw
    obtain ⟨hfs, -⟩ := hw
    subst hfs
    intro p hp
    exact updateIndex_ok
      (fun id => (storeRead (storeWrite fs.items (genMemoryId rp)
        ⟨genMemoryId rp, now, now, content, tagsOrEmpty tags⟩) id).isSome = true)
      (extract_keywords
        ⟨genMemoryId rp, now, now, content, tagsOrEmpty tags⟩)
      fs.index (genMemoryId rp)
      (fun q hq => ⟨(hok q hq).1,
        fun id hid => storeRead_write_isSome _ _ _ _ ((hok q hq).2 id hid)⟩)
      (by simp [storeRead, storeWrite, dictLookup])
      p hp

/-- Witness for C7 at a concrete input: the empty state satisfies the
invariant and a write into it preserves it. -/
theorem memory_write_index_invariant_witness :
    IndexOK ⟨[], []⟩ ∧ IndexOK fsW2 := by
  refine ⟨?_, ?_⟩
  · intro p hp
    simp at hp
  · exact memory_write_index_invariant ⟨[], []⟩ (sstr "x") (sstr "t")
      (sstr "abc") (some []) fsW2 ⟨genMemoryId (sstr "x"), true⟩
      (by intro p hp; simp at hp) (by rfl)

end MCP
